import Mathlib

/-!
Verification of the leaderboard sorting/formatting logic and the (spec-described)
Wordle feedback scorer of the wordle-benchmark repository.

The frontend code is TypeScript/React.  The logic under verification is:

* the `sortedData` memo of the `useLeaderboard` hook: it copies the fetched
  leaderboard (`[...rawData.leaderboard]`) and sorts the copy with a comparator
  that dispatches on the configured sort column, comparing lower-cased model
  names, win rates, `avg_guesses ?? 0`, golf scores, or recent-window win
  fractions, returning -1/0/1 with the sign flipped for descending order;
* the `sortBy` state transition toggling the sort direction;
* the `formatRecentResults` helper of `LeaderboardTable`
  (`recentResults.slice().reverse().map(game => game.won ? win : loss).join(" ")`);
* the feedback scorer described in the specification (its implementation, the
  Python game engine, is not part of the visible sources).

ECMAScript `Array.prototype.sort` is required to be stable; a stable sort with
a consistent comparator `cmp` is modelled by `List.insertionSort` with the
relation `fun a b => cmp a b ≤ 0`.  JavaScript numbers are modelled as `ℚ`
(all values involved are exact) and JavaScript string comparison of the
lower-cased names as the lexicographic order on their character lists.
-/

namespace WordleBench

/-- The sort columns of `SortColumn` in `types/leaderboard.ts`. -/
inductive SortColumn where
  | model_name
  | win_rate
  | avg_guesses
  | total_golf_score
  | recent_results
deriving DecidableEq

/-- The sort directions of `SortDirection` in `types/leaderboard.ts`. -/
inductive SortDirection where
  | asc
  | desc
deriving DecidableEq

/-- `SortConfig` in `types/leaderboard.ts`. -/
structure SortConfig where
  column : SortColumn
  direction : SortDirection
deriving DecidableEq

/-- `GameResult` in `types/leaderboard.ts`: one game of the recent window. -/
structure GameResult where
  date : String
  won : Bool
deriving DecidableEq

/-- `LeaderboardEntry` in `types/leaderboard.ts`.  Numeric fields are
JavaScript numbers, modelled as `ℚ`; `avg_guesses` is `number | null`. -/
structure LeaderboardEntry where
  model_name : String
  total_games : Nat
  wins : Nat
  win_rate : ℚ
  avg_guesses : Option ℚ
  total_golf_score : ℚ
  recent_results : List GameResult
deriving DecidableEq

/-- The `metadata` field of `LeaderboardResponse`. -/
structure LeaderboardMetadata where
  total_games : Nat
  total_models : Nat
  last_updated : String
deriving DecidableEq

/-- `LeaderboardResponse` in `types/leaderboard.ts`. -/
structure LeaderboardResponse where
  leaderboard : List LeaderboardEntry
  metadata : LeaderboardMetadata
deriving DecidableEq

/-- The final comparison step of the comparator in `sortedData`:
`if (aVal < bVal) return direction === "asc" ? -1 : 1;`
`if (aVal > bVal) return direction === "asc" ? 1 : -1;`
`return 0;`. -/
def cmpVal {α : Type} [LinearOrder α] (dir : SortDirection) (aVal bVal : α) : Int :=
  if aVal < bVal then (match dir with | .asc => -1 | .desc => 1)
  else if aVal > bVal then (match dir with | .asc => 1 | .desc => -1)
  else 0

/-- `a.model_name.toLowerCase()`, modelled on the character list of the name
(JavaScript compares the resulting strings lexicographically). -/
def lowerName (e : LeaderboardEntry) : List Char :=
  e.model_name.toList.map Char.toLower

/-- The `recent_results` branch of the comparator in `sortedData`:
`wins = recent_results.filter(game => game.won).length;`
`val = wins / Math.max(recent_results.length, 1)`. -/
def recentWinFraction (e : LeaderboardEntry) : ℚ :=
  (((e.recent_results.filter fun game => game.won).length : ℚ)) /
    ((max e.recent_results.length 1 : Nat) : ℚ)

/-- The comparator closure passed to `.sort` in `sortedData`
(`useLeaderboard.ts`), dispatching on the configured column. -/
def compareEntries (cfg : SortConfig) (a b : LeaderboardEntry) : Int :=
  match cfg.column with
  | .model_name => cmpVal cfg.direction (lowerName a) (lowerName b)
  | .win_rate => cmpVal cfg.direction a.win_rate b.win_rate
  | .avg_guesses => cmpVal cfg.direction (a.avg_guesses.getD 0) (b.avg_guesses.getD 0)
  | .total_golf_score => cmpVal cfg.direction a.total_golf_score b.total_golf_score
  | .recent_results => cmpVal cfg.direction (recentWinFraction a) (recentWinFraction b)

/-- The sort order induced by the comparator: `a` may be placed before `b`
exactly when the comparator does not demand the opposite order. -/
def entryLE (cfg : SortConfig) (a b : LeaderboardEntry) : Prop :=
  compareEntries cfg a b ≤ 0

instance entryLE_decidable (cfg : SortConfig) : DecidableRel (entryLE cfg) :=
  fun a b => Int.decLe (compareEntries cfg a b) 0

/-- The sort of `sortedData`: `[...rawData.leaderboard].sort(comparator)`.
ECMAScript `sort` is stable, so it is modelled by the stable
`List.insertionSort` over the preorder `entryLE cfg`. -/
def sortList (cfg : SortConfig) (l : List LeaderboardEntry) : List LeaderboardEntry :=
  l.insertionSort (entryLE cfg)

/-- The `sortedData` memo of `useLeaderboard`: empty when no data has been
fetched (`if (!rawData?.leaderboard) return []`), otherwise the sorted copy of
the fetched leaderboard. -/
def sortedData (rawData : Option LeaderboardResponse) (cfg : SortConfig) :
    List LeaderboardEntry :=
  match rawData with
  | none => []
  | some resp => sortList cfg resp.leaderboard

/-- The `sortBy` callback of `useLeaderboard`:
`direction: prev.column === column && prev.direction === "desc" ? "asc" : "desc"`. -/
def sortBy (prev : SortConfig) (column : SortColumn) : SortConfig :=
  { column := column
    direction := if prev.column = column ∧ prev.direction = .desc then .asc else .desc }

/-- The list of per-game marks built inside `formatRecentResults`
(`LeaderboardTable.tsx`): `recentResults.slice().reverse().map(game => game.won ? win : loss)`. -/
def recentMarks (recentResults : List GameResult) : List String :=
  recentResults.reverse.map fun game => if game.won then ("✅") else ("❌")

/-- `formatRecentResults` of `LeaderboardTable.tsx`: the marks joined with a
single space. -/
def formatRecentResults (recentResults : List GameResult) : String :=
  String.intercalate (" ") (recentMarks recentResults)

/-- The mutable-array semantics of `sortedData`'s sort expression, with the
receiver state threaded explicitly: JavaScript `sort` mutates its receiver in
place, but the receiver here is the fresh copy `[...rawData.leaderboard]`, so
the pair returned is (sorted view, state of the fetched list afterwards). -/
def sortedDataState (raw : List LeaderboardEntry) (cfg : SortConfig) :
    List LeaderboardEntry × List LeaderboardEntry :=
  let copy := raw
  (sortList cfg copy, raw)

/-- The mutable-array semantics of `formatRecentResults`: `reverse` mutates in
place, but its receiver is the fresh copy made by `slice()`; the pair returned
is (formatted string, state of the entry's `recent_results` afterwards). -/
def formatRecentResultsState (rs : List GameResult) : String × List GameResult :=
  let copy := rs
  (formatRecentResults copy, rs)

/-! ### Basic facts about the comparator -/

/-- The key order the comparator realises on its column, per direction. -/
def colLE (c : SortColumn) (a b : LeaderboardEntry) : Prop :=
  match c with
  | .model_name => lowerName a ≤ lowerName b
  | .win_rate => a.win_rate ≤ b.win_rate
  | .avg_guesses => a.avg_guesses.getD 0 ≤ b.avg_guesses.getD 0
  | .total_golf_score => a.total_golf_score ≤ b.total_golf_score
  | .recent_results => recentWinFraction a ≤ recentWinFraction b

theorem cmpVal_asc_nonpos {α : Type} [LinearOrder α] {a b : α} :
    cmpVal .asc a b ≤ 0 ↔ a ≤ b := by
  unfold cmpVal
  rcases lt_trichotomy a b with h | h | h
  · simp [h, le_of_lt h]
  · simp [h]
  · simp [h, not_lt_of_gt h, not_le_of_gt h]

theorem cmpVal_desc_nonpos {α : Type} [LinearOrder α] {a b : α} :
    cmpVal .desc a b ≤ 0 ↔ b ≤ a := by
  unfold cmpVal
  rcases lt_trichotomy a b with h | h | h
  · simp [h, not_le_of_gt h]
  · simp [h]
  · simp [h, le_of_lt h, not_lt_of_gt h]

theorem cmpVal_eq_zero_of_eq {α : Type} [LinearOrder α] (dir : SortDirection) {a b : α}
    (h : a = b) : cmpVal dir a b = 0 := by
  subst h
  simp [cmpVal]

theorem cmpVal_trichotomy {α : Type} [LinearOrder α] (dir : SortDirection) (a b : α) :
    cmpVal dir a b = -1 ∨ cmpVal dir a b = 0 ∨ cmpVal dir a b = 1 := by
  cases dir <;> unfold cmpVal <;> split_ifs <;> simp

theorem entryLE_iff (cfg : SortConfig) (a b : LeaderboardEntry) :
    entryLE cfg a b ↔
      (match cfg.direction with
       | .asc => colLE cfg.column a b
       | .desc => colLE cfg.column b a) := by
  obtain ⟨col, dir⟩ := cfg
  cases col <;> cases dir <;>
    simp [entryLE, compareEntries, colLE, cmpVal_asc_nonpos, cmpVal_desc_nonpos]

theorem colLE_total (c : SortColumn) (a b : LeaderboardEntry) :
    colLE c a b ∨ colLE c b a := by
  cases c <;> exact le_total _ _

theorem colLE_trans (c : SortColumn) {a b d : LeaderboardEntry}
    (h1 : colLE c a b) (h2 : colLE c b d) : colLE c a d := by
  cases c <;> exact le_trans h1 h2

theorem entryLE_total (cfg : SortConfig) (a b : LeaderboardEntry) :
    entryLE cfg a b ∨ entryLE cfg b a := by
  rw [entryLE_iff, entryLE_iff]
  cases cfg.direction
  · exact colLE_total cfg.column a b
  · exact colLE_total cfg.column b a

theorem entryLE_trans (cfg : SortConfig) {a b d : LeaderboardEntry}
    (h1 : entryLE cfg a b) (h2 : entryLE cfg b d) : entryLE cfg a d := by
  obtain ⟨col, dir⟩ := cfg
  rw [entryLE_iff] at h1 h2 ⊢
  cases dir
  · exact colLE_trans col h1 h2
  · exact colLE_trans col h2 h1

theorem entryLE_of_colEq (cfg : SortConfig) {a b : LeaderboardEntry}
    (h : ∀ c : SortColumn, colLE c a b ∧ colLE c b a) : entryLE cfg a b := by
  rw [entryLE_iff]
  cases cfg.direction
  · exact (h cfg.column).1
  · exact (h cfg.column).2

theorem sorted_sortList (cfg : SortConfig) (l : List LeaderboardEntry) :
    List.Sorted (entryLE cfg) (sortList cfg l) := by
  haveI : IsTotal LeaderboardEntry (entryLE cfg) := ⟨entryLE_total cfg⟩
  haveI : IsTrans LeaderboardEntry (entryLE cfg) := ⟨fun _ _ _ => entryLE_trans cfg⟩
  exact List.sorted_insertionSort (entryLE cfg) l

theorem perm_sortList (cfg : SortConfig) (l : List LeaderboardEntry) :
    (sortList cfg l).Perm l :=
  List.perm_insertionSort (entryLE cfg) l

/-! ### Stability of the sort

A stable sort leaves the subsequence of elements of any fixed key in its
original order.  The following lemmas prove this for `List.insertionSort`:
filtering by a predicate `p` whose holders are all related to the inserted
element commutes with sorting. -/

theorem filter_orderedInsert_of_neg {α : Type} (r : α → α → Prop) [DecidableRel r]
    (p : α → Bool) (x : α) (s : List α) (hx : p x = false) :
    (s.orderedInsert r x).filter p = s.filter p := by
  induction s with
  | nil => simp [hx]
  | cons y s ih =>
    by_cases hr : r x y
    · simp [List.orderedInsert, hr, hx]
    · rw [List.orderedInsert, if_neg hr, List.filter_cons, List.filter_cons, ih]

theorem filter_orderedInsert_of_pos {α : Type} (r : α → α → Prop) [DecidableRel r]
    (p : α → Bool) (x : α) (s : List α) (hx : p x = true)
    (h : ∀ y ∈ s, p y = true → r x y) :
    (s.orderedInsert r x).filter p = x :: s.filter p := by
  induction s with
  | nil => simp [hx]
  | cons y s ih =>
    by_cases hr : r x y
    · simp [List.orderedInsert, hr, hx]
    · have hy : p y = false := by
        cases hpy : p y
        · rfl
        · exact absurd (h y (List.mem_cons_self y s) hpy) hr
      rw [List.orderedInsert, if_neg hr, List.filter_cons, List.filter_cons, hy]
      simp only [Bool.false_eq_true, if_false]
      exact ih fun z hz hpz => h z (List.mem_cons_of_mem y hz) hpz

theorem filter_insertionSort {α : Type} (r : α → α → Prop) [DecidableRel r]
    (p : α → Bool) (l : List α)
    (h : ∀ x ∈ l, ∀ y ∈ l, p x = true → p y = true → r x y) :
    (l.insertionSort r).filter p = l.filter p := by
  induction l with
  | nil => rfl
  | cons x s ih =>
    have hrec :=
      ih fun a ha b hb hpa hpb =>
        h a (List.mem_cons_of_mem x ha) b (List.mem_cons_of_mem x hb) hpa hpb
    rw [List.insertionSort]
    cases hx : p x
    · rw [filter_orderedInsert_of_neg r p x _ hx, hrec, List.filter_cons, hx]
      simp only [Bool.false_eq_true, if_false]
    · rw [filter_orderedInsert_of_pos r p x _ hx, hrec, List.filter_cons, hx]
      · simp only [if_true]
      · intro y hy hpy
        exact h x (List.mem_cons_self x s) y
          (List.mem_cons_of_mem x ((List.mem_insertionSort r).1 hy)) hx hpy

/-! ### Concrete data used in counterexamples and witnesses -/

/-- A concrete leaderboard entry: win rate 50, empty recent window. -/
def entryA : LeaderboardEntry :=
  { model_name := ("Alpha"), total_games := 10, wins := 5, win_rate := 50,
    avg_guesses := some 4, total_golf_score := 2, recent_results := [] }

/-- A concrete leaderboard entry: win rate 30, no wins recorded
(`avg_guesses = null`), one recent win. -/
def entryB : LeaderboardEntry :=
  { model_name := ("beta"), total_games := 10, wins := 3, win_rate := 30,
    avg_guesses := none, total_golf_score := -1,
    recent_results := [{ date := ("2025-01-01"), won := true }] }

theorem entryLE_winRate_asc {a b : LeaderboardEntry} :
    entryLE ⟨.win_rate, .asc⟩ a b ↔ a.win_rate ≤ b.win_rate := by
  simp [entryLE, compareEntries, cmpVal_asc_nonpos]

theorem entryLE_of_winRate_eq (dir : SortDirection) {a b : LeaderboardEntry}
    (h : a.win_rate = b.win_rate) : entryLE ⟨.win_rate, dir⟩ a b := by
  show cmpVal dir a.win_rate b.win_rate ≤ 0
  rw [cmpVal_eq_zero_of_eq dir h]

/-! ### The claims -/

/-- Claim C1, counterexample: for the input `[entryA, entryB]` with distinct win
rates 50 and 30, sorting by `win_rate` descending and then re-sorting ascending
yields `[entryB, entryA]`: the relative order of the two entries with distinct
win rates is inverted, not restored. -/
theorem winRate_desc_asc_roundtrip_counterexample :
    entryA.win_rate ≠ entryB.win_rate ∧
    sortList ⟨.win_rate, .desc⟩ [entryA, entryB] = [entryA, entryB] ∧
    sortList ⟨.win_rate, .asc⟩ (sortList ⟨.win_rate, .desc⟩ [entryA, entryB]) =
      [entryB, entryA] :=
  ⟨by decide, by decide, by decide⟩

/-- Claim C1 (amended): for every leaderboard list, sorting by `win_rate`
descending and then re-sorting ascending yields a permutation of the input
ordered ascending by win rate — entries with distinct win rates end up in
ascending order (their original relative order is restored only when it was
already ascending) — while entries with tied win rates preserve the original
input relative order (sort stability). -/
theorem winRate_desc_asc_sorts_ascending_stably (l : List LeaderboardEntry) :
    (sortList ⟨.win_rate, .asc⟩ (sortList ⟨.win_rate, .desc⟩ l)).Perm l ∧
    (sortList ⟨.win_rate, .asc⟩ (sortList ⟨.win_rate, .desc⟩ l)).Pairwise
      (fun a b => a.win_rate ≤ b.win_rate) ∧
    ∀ q : ℚ,
      (sortList ⟨.win_rate, .asc⟩ (sortList ⟨.win_rate, .desc⟩ l)).filter
          (fun e => decide (e.win_rate = q)) =
        l.filter (fun e => decide (e.win_rate = q)) := by
  refine ⟨(perm_sortList _ _).trans (perm_sortList _ _), ?_, ?_⟩
  · exact (sorted_sortList ⟨.win_rate, .asc⟩ _).imp fun h => entryLE_winRate_asc.1 h
  · intro q
    have hside : ∀ dir : SortDirection, ∀ x y : LeaderboardEntry,
        decide (x.win_rate = q) = true → decide (y.win_rate = q) = true →
        entryLE ⟨.win_rate, dir⟩ x y := by
      intro dir x y hx hy
      exact entryLE_of_winRate_eq dir ((of_decide_eq_true hx).trans (of_decide_eq_true hy).symm)
    unfold sortList
    rw [filter_insertionSort _ _ _ fun x _ y _ => hside .asc x y,
      filter_insertionSort _ _ _ fun x _ y _ => hside .desc x y]

/-- Claim C5: with no fetched data, or with a fetched leaderboard containing no
entries, the sorted ranking is the empty list for every sort column and
direction. -/
theorem sortedData_empty_input (cfg : SortConfig) (md : LeaderboardMetadata) :
    sortedData none cfg = [] ∧
    sortedData (some { leaderboard := [], metadata := md }) cfg = [] :=
  ⟨rfl, rfl⟩

/-- Claim C6: computing the sorted view and the formatted recent-results string
leaves the fetched data unchanged — the fetched list (the sort works on the
spread copy), and each entry's `recent_results` (the formatter reverses the
`slice()` copy) — and the view is a permutation of the fetched records. -/
theorem sorting_formatting_preserve_data (raw : List LeaderboardEntry) (cfg : SortConfig)
    (rs : List GameResult) :
    (sortedDataState raw cfg).2 = raw ∧
    (formatRecentResultsState rs).2 = rs ∧
    ((sortedDataState raw cfg).1).Perm raw :=
  ⟨rfl, rfl, perm_sortList cfg raw⟩

/-- Claim C7: recomputing the sorted view is deterministic (the same input
yields identical output) and idempotent (sorting the sorted output again
returns it unchanged). -/
theorem sortedView_deterministic_idempotent (cfg : SortConfig) (l : List LeaderboardEntry)
    (raw : Option LeaderboardResponse) :
    sortedData raw cfg = sortedData raw cfg ∧
    sortList cfg (sortList cfg l) = sortList cfg l :=
  ⟨rfl, (sorted_sortList cfg l).insertionSort_eq⟩

/-- Claim C9: for every pair of entries and either direction, the
recent-results comparator is total and never divides by zero: its denominator
`max(length, 1)` is positive, an empty recent window yields win fraction 0,
and the comparator always returns one of -1, 0, 1, so comparison always
succeeds. -/
theorem recentResults_comparator_total (a b : LeaderboardEntry) (dir : SortDirection) :
    (0 : ℚ) < ((max a.recent_results.length 1 : Nat) : ℚ) ∧
    (a.recent_results = [] → recentWinFraction a = 0) ∧
    (compareEntries ⟨.recent_results, dir⟩ a b = -1 ∨
     compareEntries ⟨.recent_results, dir⟩ a b = 0 ∨
     compareEntries ⟨.recent_results, dir⟩ a b = 1) := by
  refine ⟨?_, ?_, cmpVal_trichotomy dir _ _⟩
  · have h1 : 0 < max a.recent_results.length 1 := lt_of_lt_of_le Nat.zero_lt_one (le_max_right _ _)
    exact_mod_cast h1
  · intro h
    simp [recentWinFraction, h]

/-- Witness for claim C9 at the concrete entries `entryA` (whose recent window
is empty, exercising the empty-window implication) and `entryB`. -/
theorem recentResults_comparator_total_witness :
    (0 : ℚ) < ((max entryA.recent_results.length 1 : Nat) : ℚ) ∧
    recentWinFraction entryA = 0 ∧
    (compareEntries ⟨.recent_results, .asc⟩ entryA entryB = -1 ∨
     compareEntries ⟨.recent_results, .asc⟩ entryA entryB = 0 ∨
     compareEntries ⟨.recent_results, .asc⟩ entryA entryB = 1) :=
  ⟨(recentResults_comparator_total entryA entryB .asc).1,
   (recentResults_comparator_total entryA entryB .asc).2.1 rfl,
   (recentResults_comparator_total entryA entryB .asc).2.2⟩

/-- Claim C10: the sort-toggle transition is deterministic: `sortBy c` selects
column `c`, its direction is ascending exactly when the previous configuration
was column `c` sorted descending, and descending in every other case (so the
first sort on a newly selected column is descending). -/
theorem sortBy_toggle_direction (prev : SortConfig) (c : SortColumn) :
    (sortBy prev c).column = c ∧
    ((sortBy prev c).direction = .asc ↔ prev.column = c ∧ prev.direction = .desc) ∧
    ((sortBy prev c).direction = .desc ↔ ¬(prev.column = c ∧ prev.direction = .desc)) := by
  unfold sortBy
  by_cases h : prev.column = c ∧ prev.direction = .desc <;> simp [h]

/-- Replacing a null `avg_guesses` by the value the comparator coalesces it to
(`a.avg_guesses ?? 0`), used to state claim C2. -/
def zeroNullAvg (e : LeaderboardEntry) : LeaderboardEntry :=
  { e with avg_guesses := some (e.avg_guesses.getD 0) }

theorem compareEntries_zeroNullAvg (dir : SortDirection) (a b : LeaderboardEntry) :
    compareEntries ⟨.avg_guesses, dir⟩ (zeroNullAvg a) (zeroNullAvg b) =
      compareEntries ⟨.avg_guesses, dir⟩ a b := by
  simp [compareEntries, zeroNullAvg]

/-- Claim C2: when sorting by the `avg_guesses` column, a null `avg_guesses` is
ordered exactly as the value 0: replacing every null by 0 commutes with the
sort, and in ascending order no entry with positive `avg_guesses` precedes an
entry with null `avg_guesses`. -/
theorem avgGuesses_null_sorts_as_zero (l : List LeaderboardEntry) (dir : SortDirection) :
    sortList ⟨.avg_guesses, dir⟩ (l.map zeroNullAvg) =
      (sortList ⟨.avg_guesses, dir⟩ l).map zeroNullAvg ∧
    (sortList ⟨.avg_guesses, .asc⟩ l).Pairwise
      (fun a b => b.avg_guesses = none → ∀ v : ℚ, a.avg_guesses = some v → v ≤ 0) := by
  constructor
  · exact (List.map_insertionSort (entryLE ⟨.avg_guesses, dir⟩) (entryLE ⟨.avg_guesses, dir⟩)
      zeroNullAvg l fun a _ b _ => by
        simp only [entryLE, compareEntries_zeroNullAvg]).symm
  · refine (sorted_sortList ⟨.avg_guesses, .asc⟩ l).imp ?_
    intro a b h hb v ha
    have hle : a.avg_guesses.getD 0 ≤ b.avg_guesses.getD 0 := by
      simpa [entryLE, compareEntries, cmpVal_asc_nonpos] using h
    rw [ha, hb] at hle
    simp only [Option.getD_some, Option.getD_none] at hle
    exact hle

theorem compareEntries_lowerName (dir : SortDirection) (a b : LeaderboardEntry) :
    compareEntries ⟨.model_name, dir⟩ a b = cmpVal dir (lowerName a) (lowerName b) :=
  rfl

/-- Claim C3: sorting by the `model_name` column compares lower-cased names:
entries whose names agree up to letter case compare as equal, and any renaming
that preserves the lower-cased names commutes with the sort, leaving the order
of all entries unchanged. -/
theorem modelName_sort_case_insensitive
    (rename : LeaderboardEntry → LeaderboardEntry)
    (hname : ∀ e, lowerName (rename e) = lowerName e)
    (l : List LeaderboardEntry) (dir : SortDirection) (a b : LeaderboardEntry)
    (hab : lowerName a = lowerName b) :
    compareEntries ⟨.model_name, dir⟩ a b = 0 ∧
    sortList ⟨.model_name, dir⟩ (l.map rename) =
      (sortList ⟨.model_name, dir⟩ l).map rename := by
  constructor
  · rw [compareEntries_lowerName, cmpVal_eq_zero_of_eq dir hab]
  · exact (List.map_insertionSort (entryLE ⟨.model_name, dir⟩) (entryLE ⟨.model_name, dir⟩)
      rename l fun x _ y _ => by
        simp only [entryLE, compareEntries_lowerName, hname]).symm

/-- A concrete case-only renaming: upper-cases the name of the entries called
"Alpha", used to witness claim C3. -/
def renameAlphaUpper (e : LeaderboardEntry) : LeaderboardEntry :=
  if e.model_name = ("Alpha") then { e with model_name := ("ALPHA") } else e

theorem lowerName_renameAlphaUpper (e : LeaderboardEntry) :
    lowerName (renameAlphaUpper e) = lowerName e := by
  unfold renameAlphaUpper
  by_cases h : e.model_name = ("Alpha")
  · rw [if_pos h]
    show (("ALPHA").toList.map Char.toLower) = lowerName e
    unfold lowerName
    rw [h]
    decide
  · rw [if_neg h]

/-- Witness for claim C3 at the concrete renaming `renameAlphaUpper` and the
entries `entryA` (named "Alpha") and its renamed variant (named "ALPHA"). -/
theorem modelName_sort_case_insensitive_witness :
    compareEntries ⟨.model_name, .asc⟩ entryA (renameAlphaUpper entryA) = 0 ∧
    sortList ⟨.model_name, .asc⟩ ([entryA, entryB].map renameAlphaUpper) =
      (sortList ⟨.model_name, .asc⟩ [entryA, entryB]).map renameAlphaUpper :=
  modelName_sort_case_insensitive renameAlphaUpper lowerName_renameAlphaUpper
    [entryA, entryB] .asc entryA (renameAlphaUpper entryA)
    (lowerName_renameAlphaUpper entryA).symm

/-- Claim C4: the displayed recent-results string joins one mark per game of
the window with spaces, marks in exactly the reverse of the stored
(oldest-to-newest) order: mark `i` is the win mark when game `length - 1 - i`
was won and the loss mark otherwise, and there are as many marks as games. -/
theorem formatRecentResults_reverses_with_marks (rs : List GameResult) :
    formatRecentResults rs = String.intercalate (" ") (recentMarks rs) ∧
    (recentMarks rs).length = rs.length ∧
    ∀ i : Fin rs.length,
      (recentMarks rs).get
          ⟨i.val, by simp only [recentMarks, List.length_map, List.length_reverse]; exact i.isLt⟩ =
        (if (rs.get ⟨rs.length - 1 - i.val, by have := i.isLt; omega⟩).won
          then ("✅") else ("❌")) := by
  refine ⟨rfl, by simp [recentMarks], ?_⟩
  intro i
  simp only [recentMarks, List.get_eq_getElem, List.getElem_map, List.getElem_reverse]

/-! ### The feedback scorer

The game engine implementing the scorer is not part of the visible sources;
only its data types (`types/api.ts`) and the specification's description of
the algorithm are.  The scorer below is modelled from the spec. -/

/-- `LetterStatus` from `types/api.ts`. -/
inductive LetterStatus where
  | correct
  | present
  | absent
deriving DecidableEq

/-- `LetterResult` from `types/api.ts`: position (0-4), letter, status. -/
structure LetterResult where
  position : Nat
  letter : Char
  status : LetterStatus
deriving DecidableEq

/-- The scorer's rejection of malformed input. -/
inductive ScoreError where
  | invalidInput
deriving DecidableEq

/-- Modelled from the spec: pass 2 of the feedback scorer (the game engine
code is absent from the visible sources).  Walks the zipped
(guess letter, target letter) pairs left to right; an exact match is
`correct`, otherwise a letter still available in the remaining-letter
multiset is `present` (consuming one occurrence), otherwise `absent`. -/
def scorePass2 : Nat → List (Char × Char) → List Char → List LetterResult
  | _, [], _ => []
  | i, (gc, tc) :: rest, rem =>
    if gc = tc then
      { position := i, letter := gc, status := .correct } :: scorePass2 (i + 1) rest rem
    else if gc ∈ rem then
      { position := i, letter := gc, status := .present } :: scorePass2 (i + 1) rest (rem.erase gc)
    else
      { position := i, letter := gc, status := .absent } :: scorePass2 (i + 1) rest rem

/-- Modelled from the spec: pass 1 of the feedback scorer — the multiset (as a
list) of target letters not consumed by exact position matches. -/
def remainingLetters (pairs : List (Char × Char)) : List Char :=
  pairs.filterMap fun p => if p.1 = p.2 then none else some p.2

/-- Modelled from the spec: the feedback scorer
`score(target, guess) -> 5 LetterResults` (the game engine code is absent from
the visible sources).  Rejects input that is not exactly 5 alphabetic
characters, normalizes both words to lower case, then runs the two passes. -/
def score (target guess : String) : Except ScoreError (List LetterResult) :=
  if target.toList.length = 5 ∧ target.toList.all Char.isAlpha ∧
      guess.toList.length = 5 ∧ guess.toList.all Char.isAlpha then
    Except.ok
      (scorePass2 0
        ((guess.toList.map Char.toLower).zip (target.toList.map Char.toLower))
        (remainingLetters
          ((guess.toList.map Char.toLower).zip (target.toList.map Char.toLower))))
  else
    Except.error ScoreError.invalidInput

theorem scorePass2_self (i : Nat) (l : List Char) (rem : List Char) :
    (scorePass2 i (l.zip l) rem).length = l.length ∧
    ∀ r ∈ scorePass2 i (l.zip l) rem, r.status = LetterStatus.correct := by
  induction l generalizing i rem with
  | nil => simp [scorePass2]
  | cons c l ih =>
    rw [List.zip_cons_cons, scorePass2, if_pos rfl]
    refine ⟨?_, ?_⟩
    · simpa using (ih (i + 1) rem).1
    · intro r hr
      rcases List.mem_cons.1 hr with h | h
      · rw [h]
      · exact (ih (i + 1) rem).2 r h

/-- Claim C8: scoring any valid 5-letter alphabetic word against itself
succeeds and yields five letter results, all with status `correct`. -/
theorem score_self_all_correct (w : String)
    (h5 : w.toList.length = 5) (halpha : w.toList.all Char.isAlpha = true) :
    ∃ rs, score w w = Except.ok rs ∧ rs.length = 5 ∧
      ∀ r ∈ rs, r.status = LetterStatus.correct := by
  unfold score
  rw [if_pos ⟨h5, halpha, h5, halpha⟩]
  refine ⟨_, rfl, ?_, (scorePass2_self _ _ _).2⟩
  rw [(scorePass2_self _ _ _).1, List.length_map, h5]

/-- Witness for claim C8 at the concrete word "crane". -/
theorem score_self_all_correct_witness :
    ("crane").toList.length = 5 ∧
    ∃ rs, score ("crane") ("crane") = Except.ok rs ∧ rs.length = 5 ∧
      ∀ r ∈ rs, r.status = LetterStatus.correct :=
  ⟨by decide, score_self_all_correct ("crane") (by decide) (by decide)⟩

end WordleBench
